import Mathlib

/-!
# Verification of the `arcade` minesweeper board model

The repository contains two variants of the board:

* `src/lib.rs` — a sparse representation: the board stores its dimensions and
  three `HashSet<Position>`s (mines, open cells, flagged cells).  We embed it
  in namespace `Sparse`, with `Finset (Nat × Nat)` for the hash sets.
* `src/minesweeper.rs` — a dense WASM-facing representation: a `Vec<Cell>` of
  `width*height` cells, each holding a `state` and a `value`.  We embed it in
  namespace `Dense`, with `List Cell` for the vector.

Randomness (`rand::thread_rng().gen_range(..)`) is modelled by passing the
stream of draws explicitly as a `List`; the rejection-sampling loops consume
draws until their exit condition holds and return `none` when the supplied
stream is exhausted first (`none` for every finite stream models divergence
of the unbounded loop).  Rust `usize`/`u32` values that stay small are
modelled as `Nat`; the `u8` mine counter never exceeds 8, so no wraparound
is modelled.
-/

/-- `pairs l₁ l₂` is the list of all `(i, j)` with `i ∈ l₁`, `j ∈ l₂`, in
row-major order — the shape of the Rust
`(r1).flat_map(move |i| (r2).map(move |j| (i, j)))` iterator chains. -/
def pairs (l₁ l₂ : List Nat) : List (Nat × Nat) :=
  l₁.flatMap fun i => l₂.map fun j => (i, j)

namespace Sparse

/-- `pub type Position = (usize, usize);` from `src/lib.rs`. -/
abbrev Position := Nat × Nat

/-- The `Minesweeper` struct of `src/lib.rs`: dimensions plus three hash
sets (mines, open cells, flagged cells), embedded as `Finset`s. -/
structure Minesweeper where
  width : Nat
  height : Nat
  mines : Finset Position
  open_cells : Finset Position
  flagged_cells : Finset Position
  deriving DecidableEq

/-- The `RevealResult` enum of `src/lib.rs`; the `u8` payload is a `Nat`
(proved `≤ 8` below, so no `u8` wraparound occurs). -/
inductive RevealResult where
  | Mine : RevealResult
  | MineCount : Nat → RevealResult
  deriving DecidableEq

/-- The mine-placement loop inside `Minesweeper::new` of `src/lib.rs`:
`while mines.len() < mine_count { mines.insert((gen_range(0..width), gen_range(0..height))) }`.
`draws` is the explicit stream of random pairs; `none` means the loop would
need more draws than supplied (for a loop that cannot terminate, this holds
for every finite stream). -/
def placeMines (mine_count : Nat) : List Position → Finset Position → Option (Finset Position)
  | [], mines => if mine_count ≤ mines.card then some mines else none
  | d :: ds, mines =>
      if mine_count ≤ mines.card then some mines
      else placeMines mine_count ds (insert d mines)

/-- `Minesweeper::new` of `src/lib.rs`, with the random draws explicit. -/
def new (width height mine_count : Nat) (draws : List Position) : Option Minesweeper :=
  (placeMines mine_count draws ∅).map fun m =>
    { width := width, height := height, mines := m,
      open_cells := ∅, flagged_cells := ∅ }

/-- `Minesweeper::get_neighbors_pos` of `src/lib.rs`: half-open ranges
`x_min..x_max` × `y_min..y_max` with the center filtered out.  Note the
upper clip only fires when the coordinate itself is already `≥` the
dimension. -/
def Minesweeper.get_neighbors_pos (b : Minesweeper) (p : Position) : List Position :=
  let x := p.1
  let y := p.2
  let x_min := if x > 0 then x - 1 else x
  let x_max := if x ≥ b.width then x else x + 2
  let y_min := if y > 0 then y - 1 else y
  let y_max := if y ≥ b.height then y else y + 2
  (pairs (List.range' x_min (x_max - x_min)) (List.range' y_min (y_max - y_min))).filter
    fun pos => pos ≠ (x, y)

/-- `Minesweeper::count_mines` of `src/lib.rs`: fold over the neighbor
iterator, adding one per position contained in the mine set. -/
def Minesweeper.count_mines (b : Minesweeper) (p : Position) : Nat :=
  (b.get_neighbors_pos p).foldl
    (fun acc item => if item ∈ b.mines then acc + 1 else acc) 0

/-- `Minesweeper::reveal_cell` of `src/lib.rs`: inserts the position into
`open_cells`, then reports `Mine` or the live neighbor-mine count.  Returns
the updated board together with the `RevealResult`. -/
def Minesweeper.reveal_cell (b : Minesweeper) (p : Position) : Minesweeper × RevealResult :=
  let b' := { b with open_cells := insert p b.open_cells }
  if p ∈ b'.mines then (b', RevealResult.Mine)
  else (b', RevealResult.MineCount (b'.count_mines p))

/-- `Minesweeper::flag_cell` of `src/lib.rs`: `HashSet::insert` returns
`false` when the element was already present, in which case it is removed —
a toggle. -/
def Minesweeper.flag_cell (b : Minesweeper) (p : Position) : Minesweeper :=
  if p ∈ b.flagged_cells then { b with flagged_cells := b.flagged_cells.erase p }
  else { b with flagged_cells := insert p b.flagged_cells }

/-- `Minesweeper::format_cell` of `src/lib.rs`.  Open cells take priority;
flagged cells render as lowercase `"f"`. -/
def Minesweeper.format_cell (b : Minesweeper) (p : Position) : String :=
  if p ∈ b.open_cells then
    if p ∈ b.mines then "*" else toString (b.count_mines p)
  else if p ∈ b.flagged_cells then "f"
  else "#"

end Sparse

namespace Dense

/-- The `CellValue` enum of `src/minesweeper.rs` (`Mine = 1`,
`MineCount = 0`). -/
inductive CellValue where
  | Mine : CellValue
  | MineCount : CellValue
  deriving DecidableEq

/-- The `CellState` enum of `src/minesweeper.rs` (`Closed = 0`,
`Revealed = 2`, `Flagged = 3`). -/
inductive CellState where
  | Closed : CellState
  | Revealed : CellState
  | Flagged : CellState
  deriving DecidableEq

/-- The `Cell` struct of `src/minesweeper.rs`. -/
structure Cell where
  state : CellState
  value : CellValue
  deriving DecidableEq

/-- The `Minesweeper` struct of `src/minesweeper.rs`: `u32` dimensions and a
dense `Vec<Cell>` of `width*height` cells. -/
structure Minesweeper where
  width : Nat
  height : Nat
  cells : List Cell
  deriving DecidableEq

/-- `Minesweeper::create_mine_positions` of `src/minesweeper.rs`:
`while mines.len() < mine_count { mines.insert(gen_range(0..height*width)) }`.
`draws` is the explicit stream of random linear indices (each `< height*width`
by the `gen_range` contract); `none` means the loop would need more draws
than supplied — for a loop that cannot terminate this holds for every finite
stream. -/
def create_mine_positions (mine_count : Nat) : List Nat → Finset Nat → Option (Finset Nat)
  | [], mines => if mine_count ≤ mines.card then some mines else none
  | d :: ds, mines =>
      if mine_count ≤ mines.card then some mines
      else create_mine_positions mine_count ds (insert d mines)

/-- The cell built for linear index `idx` inside `Minesweeper::new` of
`src/minesweeper.rs`: always `Closed`, `Mine` iff `idx` is in the sampled
mine set. -/
def mkCell (mines : Finset Nat) (idx : Nat) : Cell :=
  { state := CellState.Closed,
    value := if idx ∈ mines then CellValue.Mine else CellValue.MineCount }

/-- `Minesweeper::new` of `src/minesweeper.rs`: every cell starts `Closed`;
the cell at linear index `idx` holds `Mine` iff `idx` is in the sampled mine
set. -/
def new (width height mine_count : Nat) (draws : List Nat) : Option Minesweeper :=
  (create_mine_positions mine_count draws ∅).map fun mines =>
    { width := width, height := height,
      cells := (List.range (height * width)).map (mkCell mines) }

/-- `Minesweeper::get_index` of `src/minesweeper.rs`: the unguarded linear
index `row * width + column`. -/
def Minesweeper.get_index (b : Minesweeper) (row column : Nat) : Nat :=
  row * b.width + column

/-- `Minesweeper::get_cell` of `src/minesweeper.rs`:
`self.cells.get(self.get_index(row, column))`. -/
def Minesweeper.get_cell (b : Minesweeper) (row column : Nat) : Option Cell :=
  b.cells.get? (b.get_index row column)

/-- The `if let Some(cell) = self.get_cell_mut(..)` update pattern shared by
`reveal_cell` and `toggle_flag` of `src/minesweeper.rs`: when the linear
index is within the vector, replace that cell by `f` of it; otherwise leave
the vector untouched. -/
def modifyCell (cells : List Cell) (idx : Nat) (f : Cell → Cell) : List Cell :=
  match cells.get? idx with
  | some c => cells.set idx (f c)
  | none => cells

/-- The assignment `cell.state = CellState::Revealed` in
`Minesweeper::reveal_cell` of `src/minesweeper.rs`. -/
def revealUpdate (c : Cell) : Cell :=
  { c with state := CellState.Revealed }

/-- The `match c.state` body of `Minesweeper::toggle_flag` of
`src/minesweeper.rs`: `Closed ↦ Flagged`, `Flagged ↦ Closed`, anything else
untouched. -/
def toggleUpdate (c : Cell) : Cell :=
  match c.state with
  | CellState.Closed => { c with state := CellState.Flagged }
  | CellState.Flagged => { c with state := CellState.Closed }
  | _ => c

/-- `Minesweeper::reveal_cell` of `src/minesweeper.rs`: sets the cell's
state to `Revealed` when the linear index is in range, silently does nothing
otherwise; no result, no error. -/
def Minesweeper.reveal_cell (b : Minesweeper) (row col : Nat) : Minesweeper :=
  { b with cells := modifyCell b.cells (b.get_index row col) revealUpdate }

/-- `Minesweeper::toggle_flag` of `src/minesweeper.rs`: out-of-range linear
indices silently do nothing. -/
def Minesweeper.toggle_flag (b : Minesweeper) (row column : Nat) : Minesweeper :=
  { b with cells := modifyCell b.cells (b.get_index row column) toggleUpdate }

/-- The fold body of `Minesweeper::count_mines` of `src/minesweeper.rs`:
add one when the looked-up cell exists and holds a mine. -/
def countStep (b : Minesweeper) (acc : Nat) (pos : Nat × Nat) : Nat :=
  match b.get_cell pos.1 pos.2 with
  | some c => if c.value = CellValue.Mine then acc + 1 else acc
  | none => acc

/-- `Minesweeper::count_mines` of `src/minesweeper.rs`: inclusive ranges
`row_min..=row_max` × `col_min..=col_max` minus the center, each looked up
through `get_cell` (the unguarded linear index).  Note the clips compare
`row` against `width` and `col` against `height`.  Rust `u32` subtraction
`self.width - 1` panics for `width = 0`; `Nat` subtraction truncates, so
this model is faithful for `width ≥ 1` (and `height ≥ 1`). -/
def Minesweeper.count_mines (b : Minesweeper) (row col : Nat) : Nat :=
  let row_min := if row > 0 then row - 1 else row
  let row_max := if row ≥ b.width - 1 then row else row + 1
  let col_min := if col > 0 then col - 1 else col
  let col_max := if col ≥ b.height - 1 then col else col + 1
  ((pairs (List.range' row_min (row_max + 1 - row_min))
      (List.range' col_min (col_max + 1 - col_min))).filter
    fun pos => pos ≠ (row, col)).foldl (countStep b) 0

/-- The nine-way `match self.count_mines(..)` of the `Display` impl in
`src/minesweeper.rs`; every count other than `1..=8` renders as `"0"`. -/
def symbolOfCount : Nat → String
  | 1 => "1"
  | 2 => "2"
  | 3 => "3"
  | 4 => "4"
  | 5 => "5"
  | 6 => "6"
  | 7 => "7"
  | 8 => "8"
  | _ => "0"

/-- The per-cell symbol computation of `impl fmt::Display for Minesweeper`
in `src/minesweeper.rs`: `none` when `get_cell` finds no cell (the `Display`
impl aborts with `fmt::Error` there), otherwise the symbol chosen by the
cell's state and value.  Purely a projection of the board — it takes `&self`
and can mutate nothing. -/
def Minesweeper.format_cell (b : Minesweeper) (row col : Nat) : Option String :=
  (b.get_cell row col).map fun cell =>
    match cell.state with
    | CellState.Revealed =>
        match cell.value with
        | CellValue.Mine => "*"
        | CellValue.MineCount => symbolOfCount (b.count_mines row col)
    | CellState.Flagged => "F"
    | CellState.Closed => "#"

/-- One externally visible mutation of the dense board: the argument pairs
of a `reveal_cell` or `toggle_flag` call. -/
inductive Op where
  | reveal : Nat → Nat → Op
  | toggle : Nat → Nat → Op
  deriving DecidableEq

/-- Apply one call. -/
def applyOp (b : Minesweeper) : Op → Minesweeper
  | Op.reveal row col => b.reveal_cell row col
  | Op.toggle row col => b.toggle_flag row col

/-- Apply a sequence of `reveal_cell`/`toggle_flag` calls in order. -/
def applyOps (b : Minesweeper) (ops : List Op) : Minesweeper :=
  ops.foldl applyOp b

end Dense

theorem mem_pairs {l₁ l₂ : List Nat} {q : Nat × Nat} :
    q ∈ pairs l₁ l₂ ↔ q.1 ∈ l₁ ∧ q.2 ∈ l₂ := by
  cases q with
  | mk a b => simp [pairs, List.mem_flatMap]

theorem length_pairs (l₁ l₂ : List Nat) :
    (pairs l₁ l₂).length = l₁.length * l₂.length := by
  induction l₁ with
  | nil => simp [pairs]
  | cons a t ih =>
      simp only [pairs, List.flatMap_cons, List.length_append, List.length_map,
        List.length_cons] at *
      rw [ih]
      ring

theorem nodup_pairs {l₁ l₂ : List Nat} (h₁ : l₁.Nodup) (h₂ : l₂.Nodup) :
    (pairs l₁ l₂).Nodup := by
  induction l₁ with
  | nil => simp [pairs]
  | cons a t ih =>
      simp only [List.nodup_cons] at h₁
      simp only [pairs, List.flatMap_cons]
      refine List.Nodup.append ?_ (ih h₁.2) ?_
      · exact h₂.map fun x y hxy => by simpa using congrArg Prod.snd hxy
      · intro q hq hq'
        rcases List.mem_map.mp hq with ⟨j, _, rfl⟩
        have : a ∈ t := (mem_pairs.mp hq').1
        exact h₁.1 this

/-- A fold that adds at most one per list element is bounded by the
starting value plus the list length. -/
theorem foldl_le_add_length (g : Nat → α → Nat) (hg : ∀ acc x, g acc x ≤ acc + 1) :
    ∀ (l : List α) (a : Nat), l.foldl g a ≤ a + l.length := by
  intro l
  induction l with
  | nil => simp
  | cons x t ih =>
      intro a
      calc (x :: t).foldl g a = t.foldl g (g a x) := rfl
        _ ≤ g a x + t.length := ih _
        _ ≤ (a + 1) + t.length := Nat.add_le_add_right (hg a x) _
        _ = a + (x :: t).length := by simp [Nat.add_comm, Nat.add_assoc, Nat.add_left_comm]

/-- In a duplicate-free list containing `a`, filtering `a` out removes
exactly one element. -/
theorem length_filter_ne_of_mem {l : List (Nat × Nat)} {a : Nat × Nat}
    (hmem : a ∈ l) (hnd : l.Nodup) :
    (l.filter fun x => x ≠ a).length = l.length - 1 := by
  induction l with
  | nil => cases hmem
  | cons b t ih =>
      rw [List.nodup_cons] at hnd
      by_cases hba : b = a
      · subst hba
        have ht : t.filter (fun x => decide (x ≠ b)) = t := by
          apply List.filter_eq_self.mpr
          intro x hx
          exact decide_eq_true fun hxb : x = b => hnd.1 (hxb ▸ hx)
        rw [List.filter_cons, if_neg (by simp), ht]
        simp
      · have hmem' : a ∈ t := by
          rcases List.mem_cons.mp hmem with h | h
          · exact absurd h.symm hba
          · exact h
        have ht : 1 ≤ t.length := List.length_pos.mpr (List.ne_nil_of_mem hmem')
        have hlen := ih hmem' hnd.2
        rw [List.filter_cons, if_pos (by simp [hba])]
        simp only [List.length_cons, hlen]
        omega

/-- A fold that adds one per element satisfying `P` counts the elements
satisfying `P`. -/
theorem foldl_count_eq_length_filter {α : Type*} {P : α → Prop} [DecidablePred P] :
    ∀ (l : List α) (a : Nat),
      l.foldl (fun acc x => if P x then acc + 1 else acc) a
        = a + (l.filter fun x => decide (P x)).length := by
  intro l
  induction l with
  | nil => simp
  | cons x t ih =>
      intro a
      by_cases hx : P x
      · have : (x :: t).foldl (fun acc x => if P x then acc + 1 else acc) a
            = t.foldl (fun acc x => if P x then acc + 1 else acc) (a + 1) := by
          simp [hx]
        rw [this, ih, List.filter_cons, if_pos (by simpa using hx)]
        simp
        omega
      · have : (x :: t).foldl (fun acc x => if P x then acc + 1 else acc) a
            = t.foldl (fun acc x => if P x then acc + 1 else acc) a := by
          simp [hx]
        rw [this, ih, List.filter_cons, if_neg (by simpa using hx)]

namespace Sparse

/-- For an in-range position the clips of `get_neighbors_pos` resolve: the
lower bounds are `x - 1`, `y - 1` (ℕ-truncated) and the upper bounds are
`x + 2`, `y + 2` — the `x ≥ width` clip never fires for `x < width`. -/
theorem get_neighbors_eq (b : Minesweeper) (x y : Nat)
    (hx : x < b.width) (hy : y < b.height) :
    b.get_neighbors_pos (x, y) =
      (pairs (List.range' (x - 1) (x + 2 - (x - 1)))
        (List.range' (y - 1) (y + 2 - (y - 1)))).filter (fun pos => pos ≠ (x, y)) := by
  have h1 : (if x > 0 then x - 1 else x) = x - 1 := by split <;> omega
  have h2 : (if x ≥ b.width then x else x + 2) = x + 2 := by rw [if_neg (by omega)]
  have h3 : (if y > 0 then y - 1 else y) = y - 1 := by split <;> omega
  have h4 : (if y ≥ b.height then y else y + 2) = y + 2 := by rw [if_neg (by omega)]
  simp only [Minesweeper.get_neighbors_pos, h1, h2, h3, h4]

/-- Membership in the neighbor enumeration, for an in-range center:
both coordinates within `±1` of the center (ℕ-truncated below, unclipped
above) and not the center itself. -/
theorem mem_get_neighbors (b : Minesweeper) (x y : Nat)
    (hx : x < b.width) (hy : y < b.height) (q : Position) :
    q ∈ b.get_neighbors_pos (x, y) ↔
      x - 1 ≤ q.1 ∧ q.1 ≤ x + 1 ∧ y - 1 ≤ q.2 ∧ q.2 ≤ y + 1 ∧ q ≠ (x, y) := by
  rw [get_neighbors_eq b x y hx hy]
  simp only [List.mem_filter, mem_pairs, List.mem_range'_1, decide_eq_true_eq]
  constructor
  · rintro ⟨⟨⟨a1, a2⟩, b1, b2⟩, hne⟩
    exact ⟨a1, by omega, b1, by omega, hne⟩
  · rintro ⟨a1, a2, b1, b2, hne⟩
    exact ⟨⟨⟨a1, by omega⟩, b1, by omega⟩, hne⟩

/-- Length of the neighbor enumeration, for an in-range center: the center
is the only position filtered out, and the ranges clip only at `0`. -/
theorem length_get_neighbors (b : Minesweeper) (x y : Nat)
    (hx : x < b.width) (hy : y < b.height) :
    (b.get_neighbors_pos (x, y)).length
      = (if x = 0 then 2 else 3) * (if y = 0 then 2 else 3) - 1 := by
  rw [get_neighbors_eq b x y hx hy]
  have hmem : ((x, y) : Position) ∈
      pairs (List.range' (x - 1) (x + 2 - (x - 1))) (List.range' (y - 1) (y + 2 - (y - 1))) :=
    mem_pairs.mpr ⟨List.mem_range'_1.mpr ⟨by omega, by omega⟩,
      List.mem_range'_1.mpr ⟨by omega, by omega⟩⟩
  have hnd := nodup_pairs (List.nodup_range' (x - 1) (x + 2 - (x - 1)))
    (List.nodup_range' (y - 1) (y + 2 - (y - 1)))
  rw [length_filter_ne_of_mem hmem hnd, length_pairs, List.length_range', List.length_range']
  have e1 : x + 2 - (x - 1) = if x = 0 then 2 else 3 := by split <;> omega
  have e2 : y + 2 - (y - 1) = if y = 0 then 2 else 3 := by split <;> omega
  rw [e1, e2]

/-- `count_mines` is the number of enumerated neighbor positions lying in
the mine set. -/
theorem count_mines_eq_length_filter (b : Minesweeper) (p : Position) :
    b.count_mines p = ((b.get_neighbors_pos p).filter fun q => decide (q ∈ b.mines)).length := by
  have := @foldl_count_eq_length_filter Position (fun q => q ∈ b.mines) _
    (b.get_neighbors_pos p) 0
  simpa [Minesweeper.count_mines] using this

/-- For an in-range position, `count_mines` never exceeds 8. -/
theorem count_mines_le_eight (b : Minesweeper) (p : Position)
    (hx : p.1 < b.width) (hy : p.2 < b.height) :
    b.count_mines p ≤ 8 := by
  obtain ⟨x, y⟩ := p
  have hfold := foldl_le_add_length
    (fun acc (item : Position) => if item ∈ b.mines then acc + 1 else acc)
    (fun acc item => by dsimp only; split <;> omega) (b.get_neighbors_pos (x, y)) 0
  have hlen := length_get_neighbors b x y hx hy
  have hle : (if x = 0 then 2 else 3) * (if y = 0 then 2 else 3) - 1 ≤ 8 := by
    split <;> split <;> norm_num
  calc b.count_mines (x, y) ≤ 0 + (b.get_neighbors_pos (x, y)).length := hfold
    _ ≤ 8 := by rw [Nat.zero_add, hlen]; exact hle

end Sparse

/-- `count_mines` only reads the dimensions and the mine set, so changing
`open_cells` leaves it unchanged. -/
theorem count_mines_set_open (b : Sparse.Minesweeper) (s : Finset Sparse.Position)
    (p : Sparse.Position) :
    ({ b with open_cells := s } : Sparse.Minesweeper).count_mines p = b.count_mines p := rfl

/-- C3: for an in-range position, `reveal_cell` returns `Mine` exactly when
the position is a mine; otherwise it returns `MineCount n` where `n` is the
live count of mine positions among the enumerated neighbors, and
`n ≤ 8` (so the `u8` payload is the genuine count, `0..8`). -/
theorem c3_reveal_result (b : Sparse.Minesweeper) (p : Sparse.Position)
    (hx : p.1 < b.width) (hy : p.2 < b.height) :
    (((b.reveal_cell p).2 = Sparse.RevealResult.Mine) ↔ p ∈ b.mines) ∧
    (p ∉ b.mines → (b.reveal_cell p).2 = Sparse.RevealResult.MineCount (b.count_mines p)) ∧
    b.count_mines p = ((b.get_neighbors_pos p).filter fun q => decide (q ∈ b.mines)).length ∧
    b.count_mines p ≤ 8 := by
  refine ⟨?_, ?_, Sparse.count_mines_eq_length_filter b p, Sparse.count_mines_le_eight b p hx hy⟩
  · by_cases hp : p ∈ b.mines
    · simp [Sparse.Minesweeper.reveal_cell, hp]
    · simp [Sparse.Minesweeper.reveal_cell, hp]
  · intro hp
    simp [Sparse.Minesweeper.reveal_cell, hp, count_mines_set_open]

/-- Witness for C3 at a concrete 2×2 board with a mine at `(0,0)`,
revealing the in-range non-mine position `(1,1)`. -/
theorem c3_reveal_result_witness :
    ((((Sparse.Minesweeper.mk 2 2 {(0, 0)} ∅ ∅).reveal_cell (1, 1)).2
        = Sparse.RevealResult.Mine) ↔ ((1, 1) : Sparse.Position) ∈
          (Sparse.Minesweeper.mk 2 2 {(0, 0)} ∅ ∅).mines) ∧
    (((1, 1) : Sparse.Position) ∉ (Sparse.Minesweeper.mk 2 2 {(0, 0)} ∅ ∅).mines →
      ((Sparse.Minesweeper.mk 2 2 {(0, 0)} ∅ ∅).reveal_cell (1, 1)).2
        = Sparse.RevealResult.MineCount
            ((Sparse.Minesweeper.mk 2 2 {(0, 0)} ∅ ∅).count_mines (1, 1))) ∧
    (Sparse.Minesweeper.mk 2 2 {(0, 0)} ∅ ∅).count_mines (1, 1)
      = (((Sparse.Minesweeper.mk 2 2 {(0, 0)} ∅ ∅).get_neighbors_pos (1, 1)).filter
          fun q => decide (q ∈ (Sparse.Minesweeper.mk 2 2 {(0, 0)} ∅ ∅).mines)).length ∧
    (Sparse.Minesweeper.mk 2 2 {(0, 0)} ∅ ∅).count_mines (1, 1) ≤ 8 :=
  c3_reveal_result (Sparse.Minesweeper.mk 2 2 {(0, 0)} ∅ ∅) (1, 1) (by decide) (by decide)

/-- C4 counterexample: on a 10×10 board the corner `(9,9)` has 8 enumerated
neighbors (the claim says 3) and the enumeration contains `(10,10)`, which
lies outside the grid (the claim says no enumerated neighbor does). -/
theorem c4_counterexample :
    ((Sparse.Minesweeper.mk 10 10 ∅ ∅ ∅).get_neighbors_pos (9, 9)).length ≠ 3 ∧
    ((Sparse.Minesweeper.mk 10 10 ∅ ∅ ∅).get_neighbors_pos (9, 9)).length = 8 ∧
    ((10, 10) : Sparse.Position) ∈
      (Sparse.Minesweeper.mk 10 10 ∅ ∅ ∅).get_neighbors_pos (9, 9) := by
  refine ⟨?_, ?_, ?_⟩ <;> decide

/-- C4 (amended): for an in-range center the enumeration is the `±1` box
minus the center, clipped only at the lower bound `0` — never at
`width`/`height` — so its size is `(2 or 3) · (2 or 3) − 1` according to
which coordinates are `0`: `(0,0)` has 3, cells with exactly one zero
coordinate have 5, and all others (including far corners and far edges)
have 8. -/
theorem c4_neighbors_amended (b : Sparse.Minesweeper) (x y : Nat)
    (hx : x < b.width) (hy : y < b.height) :
    (∀ q : Sparse.Position, q ∈ b.get_neighbors_pos (x, y) ↔
        x - 1 ≤ q.1 ∧ q.1 ≤ x + 1 ∧ y - 1 ≤ q.2 ∧ q.2 ≤ y + 1 ∧ q ≠ (x, y)) ∧
    (b.get_neighbors_pos (x, y)).length
      = (if x = 0 then 2 else 3) * (if y = 0 then 2 else 3) - 1 :=
  ⟨Sparse.mem_get_neighbors b x y hx hy, Sparse.length_get_neighbors b x y hx hy⟩

/-- Witness for the amended C4 at the 10×10 board: the top-edge cell
`(0,5)` has `2·3−1 = 5` enumerated neighbors, one of which is `(1,4)`. -/
theorem c4_neighbors_amended_witness :
    (((1, 4) : Sparse.Position) ∈
        (Sparse.Minesweeper.mk 10 10 ∅ ∅ ∅).get_neighbors_pos (0, 5) ↔
      0 - 1 ≤ 1 ∧ 1 ≤ 0 + 1 ∧ 5 - 1 ≤ 4 ∧ 4 ≤ 5 + 1 ∧ ((1, 4) : Sparse.Position) ≠ (0, 5)) ∧
    ((Sparse.Minesweeper.mk 10 10 ∅ ∅ ∅).get_neighbors_pos (0, 5)).length
      = (if (0 : Nat) = 0 then 2 else 3) * (if (5 : Nat) = 0 then 2 else 3) - 1 :=
  ⟨(c4_neighbors_amended (Sparse.Minesweeper.mk 10 10 ∅ ∅ ∅) 0 5 (by decide) (by decide)).1
      (1, 4),
   (c4_neighbors_amended (Sparse.Minesweeper.mk 10 10 ∅ ∅ ∅) 0 5 (by decide) (by decide)).2⟩

/-- C8: revealing an in-range non-mine position twice yields the same
`MineCount` result both times, and the cell is open (revealed) after each
call. -/
theorem c8_reveal_idempotent (b : Sparse.Minesweeper) (p : Sparse.Position)
    (hx : p.1 < b.width) (hy : p.2 < b.height) (hp : p ∉ b.mines) :
    (b.reveal_cell p).2 = Sparse.RevealResult.MineCount (b.count_mines p) ∧
    (((b.reveal_cell p).1).reveal_cell p).2
      = Sparse.RevealResult.MineCount (b.count_mines p) ∧
    p ∈ (b.reveal_cell p).1.open_cells ∧
    p ∈ (((b.reveal_cell p).1).reveal_cell p).1.open_cells := by
  refine ⟨?_, ?_, ?_, ?_⟩ <;>
    simp [Sparse.Minesweeper.reveal_cell, hp, count_mines_set_open]

/-- Witness for C8 at a concrete 2×2 board with a mine at `(0,0)`,
revealing `(1,0)` twice. -/
theorem c8_reveal_idempotent_witness :
    (((Sparse.Minesweeper.mk 2 2 {(0, 0)} ∅ ∅).reveal_cell (1, 0)).2
      = Sparse.RevealResult.MineCount
          ((Sparse.Minesweeper.mk 2 2 {(0, 0)} ∅ ∅).count_mines (1, 0))) ∧
    ((((Sparse.Minesweeper.mk 2 2 {(0, 0)} ∅ ∅).reveal_cell (1, 0)).1).reveal_cell (1, 0)).2
      = Sparse.RevealResult.MineCount
          ((Sparse.Minesweeper.mk 2 2 {(0, 0)} ∅ ∅).count_mines (1, 0)) ∧
    ((1, 0) : Sparse.Position)
      ∈ ((Sparse.Minesweeper.mk 2 2 {(0, 0)} ∅ ∅).reveal_cell (1, 0)).1.open_cells ∧
    ((1, 0) : Sparse.Position)
      ∈ ((((Sparse.Minesweeper.mk 2 2 {(0, 0)} ∅ ∅).reveal_cell (1, 0)).1).reveal_cell
          (1, 0)).1.open_cells :=
  c8_reveal_idempotent (Sparse.Minesweeper.mk 2 2 {(0, 0)} ∅ ∅) (1, 0)
    (by decide) (by decide) (by decide)

/-- Setting a list entry to the value it already holds is the identity. -/
theorem set_get_eq_self {α : Type*} :
    ∀ (l : List α) (i : Nat) (a : α), l.get? i = some a → l.set i a = l := by
  intro l
  induction l with
  | nil => intro i a h; cases h
  | cons x t ih =>
      intro i a h
      cases i with
      | zero =>
          simp only [List.get?] at h
          cases h
          rfl
      | succ j =>
          simp only [List.get?] at h
          simp [List.set, ih j a h]

namespace Dense

/-- Reading back the modified index: `modifyCell` at a valid index applies
`f` to the stored cell. -/
theorem get?_modifyCell_self (cells : List Cell) (idx : Nat) (f : Cell → Cell)
    (c : Cell) (h : cells.get? idx = some c) :
    (modifyCell cells idx f).get? idx = some (f c) := by
  have hlt : idx < cells.length := by
    rcases List.get?_eq_some.mp h with ⟨hlt, _⟩
    exact hlt
  simp only [modifyCell, h]
  rw [List.get?_eq_getElem?]
  exact List.getElem?_set_self (by simpa using hlt)

/-- `modifyCell` with a pointwise-fixed function is the identity. -/
theorem modifyCell_eq_self (cells : List Cell) (idx : Nat) (f : Cell → Cell)
    (h : ∀ c, cells.get? idx = some c → f c = c) :
    modifyCell cells idx f = cells := by
  unfold modifyCell
  cases hc : cells.get? idx with
  | none => rfl
  | some c =>
      simp only []
      rw [h c hc]
      exact set_get_eq_self cells idx c hc

/-- `modifyCell` with a value-preserving function preserves the sequence of
cell values. -/
theorem map_value_modifyCell (cells : List Cell) (idx : Nat) (f : Cell → Cell)
    (hf : ∀ c, (f c).value = c.value) :
    (modifyCell cells idx f).map Cell.value = cells.map Cell.value := by
  unfold modifyCell
  cases hc : cells.get? idx with
  | none => rfl
  | some c =>
      rw [List.map_set, hf c]
      apply set_get_eq_self
      rw [List.get?_eq_getElem?] at hc ⊢
      simpa using congrArg (Option.map Cell.value) hc

/-- Both cell updates of the dense variant leave `value` untouched. -/
theorem update_value_eq : (∀ c : Cell, (revealUpdate c).value = c.value) ∧
    (∀ c : Cell, (toggleUpdate c).value = c.value) := by
  constructor
  · intro c; rfl
  · intro c
    cases h : c.state <;> simp [toggleUpdate, h]

/-- The exit guard of `create_mine_positions` can never be satisfied while
the accumulated set stays inside `[0, N)` with `N < mine_count`: the loop
consumes every draw and still wants more. -/
theorem create_mine_positions_none :
    ∀ (draws : List Nat) (mines : Finset Nat) (N mc : Nat),
      (∀ d ∈ draws, d < N) → (∀ x ∈ mines, x < N) → N < mc →
      create_mine_positions mc draws mines = none := by
  intro draws
  induction draws with
  | nil =>
      intro mines N mc _ hm hlt
      have hcard : mines.card ≤ N := by
        calc mines.card ≤ (Finset.range N).card :=
              Finset.card_le_card fun x hx => Finset.mem_range.mpr (hm x hx)
          _ = N := Finset.card_range N
      simp only [create_mine_positions]
      rw [if_neg (by omega)]
  | cons d ds ih =>
      intro mines N mc hd hm hlt
      have hcard : mines.card ≤ N := by
        calc mines.card ≤ (Finset.range N).card :=
              Finset.card_le_card fun x hx => Finset.mem_range.mpr (hm x hx)
          _ = N := Finset.card_range N
      simp only [create_mine_positions]
      rw [if_neg (by omega)]
      apply ih _ N mc (fun x hx => hd x (List.mem_cons_of_mem d hx)) _ hlt
      intro x hx
      rcases Finset.mem_insert.mp hx with rfl | hx'
      · exact hd x (List.mem_cons_self x ds)
      · exact hm x hx'

/-- When the placement loop terminates, the set size is exactly
`mine_count` (the guard checks before every insertion, and each insertion
grows the set by at most one). -/
theorem create_mine_positions_card :
    ∀ (draws : List Nat) (mines : Finset Nat) (mc : Nat) (m : Finset Nat),
      mines.card ≤ mc → create_mine_positions mc draws mines = some m →
      m.card = mc := by
  intro draws
  induction draws with
  | nil =>
      intro mines mc m hle h
      simp only [create_mine_positions] at h
      split at h
      · cases h; omega
      · cases h
  | cons d ds ih =>
      intro mines mc m hle h
      simp only [create_mine_positions] at h
      split at h
      · cases h; omega
      · rename_i hguard
        have hcard : (insert d mines).card ≤ mc := by
          have := Finset.card_insert_le d mines
          omega
        exact ih (insert d mines) mc m hcard h

/-- Every element of the placed mine set comes from the initial set or from
the draw stream. -/
theorem create_mine_positions_subset :
    ∀ (draws : List Nat) (mines : Finset Nat) (mc : Nat) (m : Finset Nat),
      create_mine_positions mc draws mines = some m →
      ∀ x ∈ m, x ∈ mines ∨ x ∈ draws := by
  intro draws
  induction draws with
  | nil =>
      intro mines mc m h x hx
      simp only [create_mine_positions] at h
      split at h
      · cases h; exact Or.inl hx
      · cases h
  | cons d ds ih =>
      intro mines mc m h x hx
      simp only [create_mine_positions] at h
      split at h
      · cases h; exact Or.inl hx
      · rcases ih (insert d mines) mc m h x hx with hin | hds
        · rcases Finset.mem_insert.mp hin with rfl | hm
          · exact Or.inr (List.mem_cons_self x ds)
          · exact Or.inl hm
        · exact Or.inr (List.mem_cons_of_mem d hds)

/-- Counting the members of `s` among `0, …, n-1` gives `s.card` whenever
`s ⊆ [0, n)`. -/
theorem countP_range_mem :
    ∀ (n : Nat) (s : Finset Nat), (∀ x ∈ s, x < n) →
      (List.range n).countP (fun idx => decide (idx ∈ s)) = s.card := by
  intro n
  induction n with
  | zero =>
      intro s hs
      have : s = ∅ := Finset.eq_empty_of_forall_not_mem fun x hx => Nat.not_lt_zero x (hs x hx)
      simp [this]
  | succ n ih =>
      intro s hs
      rw [List.range_succ, List.countP_append]
      by_cases hn : n ∈ s
      · have herase : ∀ x ∈ s.erase n, x < n := by
          intro x hx
          have hxs := Finset.mem_of_mem_erase hx
          have hxne := Finset.ne_of_mem_erase hx
          have := hs x hxs
          omega
        have hcount : (List.range n).countP (fun idx => decide (idx ∈ s))
            = (List.range n).countP (fun idx => decide (idx ∈ s.erase n)) := by
          apply List.countP_congr
          intro x hx
          have hxn : x ≠ n := by
            have := List.mem_range.mp hx
            omega
          simp [Finset.mem_erase, hxn]
        rw [hcount, ih (s.erase n) herase]
        have := Finset.card_erase_add_one hn
        simp [hn]
        omega
      · have hlt : ∀ x ∈ s, x < n := by
          intro x hx
          have := hs x hx
          rcases Nat.lt_succ_iff_lt_or_eq.mp this with h | rfl
          · exact h
          · exact absurd hx hn
        rw [ih s hlt]
        simp [hn]

/-- In-range `(row, col)` positions have linear index inside the vector. -/
theorem index_lt_of_in_range {w h row col : Nat} (hrow : row < h) (hcol : col < w) :
    row * w + col < w * h := by
  calc row * w + col < row * w + w := by omega
    _ = (row + 1) * w := by ring
    _ ≤ h * w := Nat.mul_le_mul_right w hrow
    _ = w * h := Nat.mul_comm h w

end Dense

/-- C1 (code behavior at the failing precondition): when
`mine_count > width*height`, every draw of `gen_range(0..height*width)` is
below `height*width`, so the mine set always stays inside the grid's index
range and its size can never reach `mine_count`: the rejection-sampling
loop exhausts *every* finite draw stream — it never terminates, and no
`TooManyMines` error exists anywhere in the code. -/
theorem c1_construction_hangs (w h mc : Nat) (draws : List Nat)
    (hw : 0 < w) (hh : 0 < h)
    (hdraws : ∀ d ∈ draws, d < h * w) (hmc : w * h < mc) :
    Dense.create_mine_positions mc draws ∅ = none ∧ Dense.new w h mc draws = none := by
  have hmc' : h * w < mc := by rw [Nat.mul_comm]; exact hmc
  have hnone := Dense.create_mine_positions_none draws ∅ (h * w) mc hdraws
    (fun x hx => absurd hx (Finset.not_mem_empty x)) hmc'
  exact ⟨hnone, by simp [Dense.new, hnone]⟩

/-- Witness for C1: a 1×1 board asked for 2 mines consumes any draw stream
(here three draws) without terminating, and `new` produces no board. -/
theorem c1_construction_hangs_witness :
    Dense.create_mine_positions 2 [0, 0, 0] ∅ = none ∧ Dense.new 1 1 2 [0, 0, 0] = none :=
  c1_construction_hangs 1 1 2 [0, 0, 0] (by decide) (by decide) (by decide) (by decide)

/-- The per-call mutations preserve every cell's `value` as well as the
dimensions, so any sequence of `reveal_cell`/`toggle_flag` calls does. -/
theorem applyOps_preserves_values (b : Dense.Minesweeper) (ops : List Dense.Op) :
    (Dense.applyOps b ops).cells.map Dense.Cell.value = b.cells.map Dense.Cell.value ∧
    (Dense.applyOps b ops).width = b.width ∧
    (Dense.applyOps b ops).height = b.height := by
  induction ops generalizing b with
  | nil => exact ⟨rfl, rfl, rfl⟩
  | cons op t ih =>
      have hop : (Dense.applyOp b op).cells.map Dense.Cell.value
            = b.cells.map Dense.Cell.value ∧
          (Dense.applyOp b op).width = b.width ∧ (Dense.applyOp b op).height = b.height := by
        cases op with
        | reveal row col =>
            exact ⟨Dense.map_value_modifyCell _ _ _ Dense.update_value_eq.1, rfl, rfl⟩
        | toggle row col =>
            exact ⟨Dense.map_value_modifyCell _ _ _ Dense.update_value_eq.2, rfl, rfl⟩
      obtain ⟨h1, h2, h3⟩ := ih (Dense.applyOp b op)
      exact ⟨h1.trans hop.1, h2.trans hop.2.1, h3.trans hop.2.2⟩

/-- C5: a successfully constructed board has exactly `mine_count` cells
whose value is `Mine`, and no sequence of `reveal_cell`/`toggle_flag` calls
changes any cell's value (hence the set of mine-valued cells is fixed). -/
theorem c5_mine_count_invariant (w h mc : Nat) (draws : List Nat)
    (b : Dense.Minesweeper) (ops : List Dense.Op)
    (hdraws : ∀ d ∈ draws, d < h * w)
    (hb : Dense.new w h mc draws = some b) :
    b.cells.countP (fun c => decide (c.value = Dense.CellValue.Mine)) = mc ∧
    (Dense.applyOps b ops).cells.map Dense.Cell.value = b.cells.map Dense.Cell.value ∧
    (Dense.applyOps b ops).width = b.width ∧
    (Dense.applyOps b ops).height = b.height := by
  refine ⟨?_, applyOps_preserves_values b ops⟩
  unfold Dense.new at hb
  cases hcr : Dense.create_mine_positions mc draws ∅ with
  | none => rw [hcr] at hb; cases hb
  | some mines =>
      rw [hcr] at hb
      simp only [Option.map_some'] at hb
      obtain rfl := Option.some.inj hb
      have hsub : ∀ x ∈ mines, x < h * w := by
        intro x hx
        rcases Dense.create_mine_positions_subset draws ∅ mc mines hcr x hx with h0 | hdr
        · exact absurd h0 (Finset.not_mem_empty x)
        · exact hdraws x hdr
      have hcard : mines.card = mc :=
        Dense.create_mine_positions_card draws ∅ mc mines (by simp) hcr
      simp only [List.countP_map]
      have hcong : (List.range (h * w)).countP
            ((fun c => decide (c.value = Dense.CellValue.Mine)) ∘ Dense.mkCell mines)
          = (List.range (h * w)).countP (fun idx => decide (idx ∈ mines)) := by
        apply List.countP_congr
        intro x _
        by_cases hx : x ∈ mines <;> simp [Dense.mkCell, hx]
      rw [hcong, Dense.countP_range_mem (h * w) mines hsub, hcard]

/-- Witness for C5: a 2×2 board built from the single draw `0` has exactly
one mine, preserved by a reveal and a flag toggle. -/
theorem c5_mine_count_invariant_witness :
    (Dense.Minesweeper.mk 2 2
        [Dense.Cell.mk Dense.CellState.Closed Dense.CellValue.Mine,
         Dense.Cell.mk Dense.CellState.Closed Dense.CellValue.MineCount,
         Dense.Cell.mk Dense.CellState.Closed Dense.CellValue.MineCount,
         Dense.Cell.mk Dense.CellState.Closed Dense.CellValue.MineCount]).cells.countP
      (fun c => decide (c.value = Dense.CellValue.Mine)) = 1 ∧
    (Dense.applyOps (Dense.Minesweeper.mk 2 2
        [Dense.Cell.mk Dense.CellState.Closed Dense.CellValue.Mine,
         Dense.Cell.mk Dense.CellState.Closed Dense.CellValue.MineCount,
         Dense.Cell.mk Dense.CellState.Closed Dense.CellValue.MineCount,
         Dense.Cell.mk Dense.CellState.Closed Dense.CellValue.MineCount])
        [Dense.Op.reveal 0 0, Dense.Op.toggle 1 1]).cells.map Dense.Cell.value
      = (Dense.Minesweeper.mk 2 2
        [Dense.Cell.mk Dense.CellState.Closed Dense.CellValue.Mine,
         Dense.Cell.mk Dense.CellState.Closed Dense.CellValue.MineCount,
         Dense.Cell.mk Dense.CellState.Closed Dense.CellValue.MineCount,
         Dense.Cell.mk Dense.CellState.Closed Dense.CellValue.MineCount]).cells.map
          Dense.Cell.value ∧
    (Dense.applyOps (Dense.Minesweeper.mk 2 2
        [Dense.Cell.mk Dense.CellState.Closed Dense.CellValue.Mine,
         Dense.Cell.mk Dense.CellState.Closed Dense.CellValue.MineCount,
         Dense.Cell.mk Dense.CellState.Closed Dense.CellValue.MineCount,
         Dense.Cell.mk Dense.CellState.Closed Dense.CellValue.MineCount])
        [Dense.Op.reveal 0 0, Dense.Op.toggle 1 1]).width
      = (Dense.Minesweeper.mk 2 2
        [Dense.Cell.mk Dense.CellState.Closed Dense.CellValue.Mine,
         Dense.Cell.mk Dense.CellState.Closed Dense.CellValue.MineCount,
         Dense.Cell.mk Dense.CellState.Closed Dense.CellValue.MineCount,
         Dense.Cell.mk Dense.CellState.Closed Dense.CellValue.MineCount]).width ∧
    (Dense.applyOps (Dense.Minesweeper.mk 2 2
        [Dense.Cell.mk Dense.CellState.Closed Dense.CellValue.Mine,
         Dense.Cell.mk Dense.CellState.Closed Dense.CellValue.MineCount,
         Dense.Cell.mk Dense.CellState.Closed Dense.CellValue.MineCount,
         Dense.Cell.mk Dense.CellState.Closed Dense.CellValue.MineCount])
        [Dense.Op.reveal 0 0, Dense.Op.toggle 1 1]).height
      = (Dense.Minesweeper.mk 2 2
        [Dense.Cell.mk Dense.CellState.Closed Dense.CellValue.Mine,
         Dense.Cell.mk Dense.CellState.Closed Dense.CellValue.MineCount,
         Dense.Cell.mk Dense.CellState.Closed Dense.CellValue.MineCount,
         Dense.Cell.mk Dense.CellState.Closed Dense.CellValue.MineCount]).height :=
  c5_mine_count_invariant 2 2 1 [0] _ [Dense.Op.reveal 0 0, Dense.Op.toggle 1 1]
    (by decide) (by decide)

/-- C6: `toggle_flag` on an in-range cell whose state is `Revealed` returns
the board completely unchanged — `Revealed` is absorbing. -/
theorem c6_toggle_revealed_noop (b : Dense.Minesweeper) (row col : Nat)
    (hrow : row < b.height) (hcol : col < b.width)
    (hlen : b.cells.length = b.width * b.height)
    (hst : (b.get_cell row col).map Dense.Cell.state = some Dense.CellState.Revealed) :
    b.toggle_flag row col = b := by
  cases hc : b.get_cell row col with
  | none => rw [hc] at hst; cases hst
  | some c =>
      rw [hc] at hst
      have hcs : c.state = Dense.CellState.Revealed := by simpa using hst
      have hc2 : b.cells.get? (b.get_index row col) = some c := hc
      have hmod : Dense.modifyCell b.cells (b.get_index row col) Dense.toggleUpdate
          = b.cells := by
        apply Dense.modifyCell_eq_self
        intro c' hc'
        rw [hc2] at hc'
        obtain rfl := Option.some.inj hc'
        simp [Dense.toggleUpdate, hcs]
      unfold Dense.Minesweeper.toggle_flag
      rw [hmod]

/-- Witness for C6: toggling the single revealed cell of a 1×1 board
changes nothing. -/
theorem c6_toggle_revealed_noop_witness :
    Dense.Minesweeper.toggle_flag
        (Dense.Minesweeper.mk 1 1
          [Dense.Cell.mk Dense.CellState.Revealed Dense.CellValue.MineCount]) 0 0
      = Dense.Minesweeper.mk 1 1
          [Dense.Cell.mk Dense.CellState.Revealed Dense.CellValue.MineCount] :=
  c6_toggle_revealed_noop
    (Dense.Minesweeper.mk 1 1
      [Dense.Cell.mk Dense.CellState.Revealed Dense.CellValue.MineCount]) 0 0
    (by decide) (by decide) (by decide) (by decide)

/-- `modifyCell` at an index holding `c` replaces it by `f c`. -/
theorem modifyCell_of_get? (cells : List Dense.Cell) (idx : Nat) (f : Dense.Cell → Dense.Cell)
    (c : Dense.Cell) (h : cells.get? idx = some c) :
    Dense.modifyCell cells idx f = cells.set idx (f c) := by
  simp only [Dense.modifyCell, h]

/-- Double `toggleUpdate` on a closed cell is the identity. -/
theorem toggleUpdate_toggleUpdate_closed (c : Dense.Cell)
    (hcs : c.state = Dense.CellState.Closed) :
    Dense.toggleUpdate (Dense.toggleUpdate c) = c := by
  cases c with
  | mk st v =>
      simp only at hcs
      subst hcs
      rfl

/-- C7: `toggle_flag` on an in-range `Closed` cell makes it `Flagged`, and a
second `toggle_flag` restores the original board exactly. -/
theorem c7_toggle_involution (b : Dense.Minesweeper) (row col : Nat)
    (hrow : row < b.height) (hcol : col < b.width)
    (hlen : b.cells.length = b.width * b.height)
    (hst : (b.get_cell row col).map Dense.Cell.state = some Dense.CellState.Closed) :
    ((b.toggle_flag row col).get_cell row col).map Dense.Cell.state
        = some Dense.CellState.Flagged ∧
    (b.toggle_flag row col).toggle_flag row col = b := by
  cases hc : b.get_cell row col with
  | none => rw [hc] at hst; cases hst
  | some c =>
      rw [hc] at hst
      have hcs : c.state = Dense.CellState.Closed := by simpa using hst
      have hc2 : b.cells.get? (b.get_index row col) = some c := hc
      have hget1 : (Dense.modifyCell b.cells (b.get_index row col)
            Dense.toggleUpdate).get? (b.get_index row col)
          = some (Dense.toggleUpdate c) :=
        Dense.get?_modifyCell_self _ _ _ _ hc2
      constructor
      · have hcell1 : ((b.toggle_flag row col).get_cell row col)
            = some (Dense.toggleUpdate c) := hget1
        rw [hcell1]
        simp [Dense.toggleUpdate, hcs]
      · have hmod1 : Dense.modifyCell b.cells (b.get_index row col) Dense.toggleUpdate
            = b.cells.set (b.get_index row col) (Dense.toggleUpdate c) :=
          modifyCell_of_get? b.cells (b.get_index row col) Dense.toggleUpdate c hc2
        have hmod2 : Dense.modifyCell (Dense.modifyCell b.cells (b.get_index row col)
              Dense.toggleUpdate) (b.get_index row col) Dense.toggleUpdate
            = b.cells := by
          rw [modifyCell_of_get? _ (b.get_index row col) Dense.toggleUpdate
              (Dense.toggleUpdate c) hget1]
          rw [hmod1, List.set_set, toggleUpdate_toggleUpdate_closed c hcs]
          exact set_get_eq_self _ _ _ hc2
        have hfin : (b.toggle_flag row col).toggle_flag row col = { b with cells := Dense.modifyCell (Dense.modifyCell b.cells (b.get_index row col) Dense.toggleUpdate) (b.get_index row col) Dense.toggleUpdate } := rfl
        rw [hfin, hmod2]

/-- Witness for C7: flagging then unflagging the single closed cell of a
1×1 board. -/
theorem c7_toggle_involution_witness :
    (((Dense.Minesweeper.mk 1 1
          [Dense.Cell.mk Dense.CellState.Closed Dense.CellValue.MineCount]).toggle_flag
        0 0).get_cell 0 0).map Dense.Cell.state = some Dense.CellState.Flagged ∧
    ((Dense.Minesweeper.mk 1 1
          [Dense.Cell.mk Dense.CellState.Closed Dense.CellValue.MineCount]).toggle_flag
        0 0).toggle_flag 0 0
      = Dense.Minesweeper.mk 1 1
          [Dense.Cell.mk Dense.CellState.Closed Dense.CellValue.MineCount] :=
  c7_toggle_involution
    (Dense.Minesweeper.mk 1 1
      [Dense.Cell.mk Dense.CellState.Closed Dense.CellValue.MineCount]) 0 0
    (by decide) (by decide) (by decide) (by decide)

/-- C2 (code behavior at out-of-range positions): neither `reveal_cell` nor
`toggle_flag` has any error channel.  On the dense 2×2 board, `toggle_flag`
and `reveal_cell` at row 2 (linear index 4, past the vector) silently
change nothing, while `reveal_cell` at `(0, 2)` (column out of range but
linear index 2 inside the vector) mutates the aliased cell; the sparse
variant's `reveal_cell` unconditionally inserts any position — in range or
not — into `open_cells` and returns a result. -/
theorem c2_no_out_of_bounds_error (b : Dense.Minesweeper)
    (hb : Dense.new 2 2 0 [] = some b)
    (bs : Sparse.Minesweeper) (p : Sparse.Position) :
    b.toggle_flag 2 0 = b ∧
    b.reveal_cell 2 0 = b ∧
    ((b.reveal_cell 0 2).cells.map Dense.Cell.state).get? 2
      = some Dense.CellState.Revealed ∧
    ((bs.reveal_cell p).1).open_cells = insert p bs.open_cells := by
  have hval : Dense.new 2 2 0 []
      = some (Dense.Minesweeper.mk 2 2
          [Dense.Cell.mk Dense.CellState.Closed Dense.CellValue.MineCount,
           Dense.Cell.mk Dense.CellState.Closed Dense.CellValue.MineCount,
           Dense.Cell.mk Dense.CellState.Closed Dense.CellValue.MineCount,
           Dense.Cell.mk Dense.CellState.Closed Dense.CellValue.MineCount]) := by decide
  rw [hval] at hb
  obtain rfl := Option.some.inj hb
  refine ⟨by decide, by decide, by decide, ?_⟩
  by_cases hp : p ∈ bs.mines <;> simp [Sparse.Minesweeper.reveal_cell, hp]

/-- Witness for C2's theorem at its concrete inputs: the 2×2 dense board of
closed empty cells and the sparse board `⟨2,2,∅,∅,∅⟩` probed at the
out-of-range position `(5,5)`. -/
theorem c2_no_out_of_bounds_error_witness :
    (Dense.Minesweeper.mk 2 2
        [Dense.Cell.mk Dense.CellState.Closed Dense.CellValue.MineCount,
         Dense.Cell.mk Dense.CellState.Closed Dense.CellValue.MineCount,
         Dense.Cell.mk Dense.CellState.Closed Dense.CellValue.MineCount,
         Dense.Cell.mk Dense.CellState.Closed Dense.CellValue.MineCount]).toggle_flag 2 0
      = Dense.Minesweeper.mk 2 2
        [Dense.Cell.mk Dense.CellState.Closed Dense.CellValue.MineCount,
         Dense.Cell.mk Dense.CellState.Closed Dense.CellValue.MineCount,
         Dense.Cell.mk Dense.CellState.Closed Dense.CellValue.MineCount,
         Dense.Cell.mk Dense.CellState.Closed Dense.CellValue.MineCount] ∧
    (Dense.Minesweeper.mk 2 2
        [Dense.Cell.mk Dense.CellState.Closed Dense.CellValue.MineCount,
         Dense.Cell.mk Dense.CellState.Closed Dense.CellValue.MineCount,
         Dense.Cell.mk Dense.CellState.Closed Dense.CellValue.MineCount,
         Dense.Cell.mk Dense.CellState.Closed Dense.CellValue.MineCount]).reveal_cell 2 0
      = Dense.Minesweeper.mk 2 2
        [Dense.Cell.mk Dense.CellState.Closed Dense.CellValue.MineCount,
         Dense.Cell.mk Dense.CellState.Closed Dense.CellValue.MineCount,
         Dense.Cell.mk Dense.CellState.Closed Dense.CellValue.MineCount,
         Dense.Cell.mk Dense.CellState.Closed Dense.CellValue.MineCount] ∧
    (((Dense.Minesweeper.mk 2 2
        [Dense.Cell.mk Dense.CellState.Closed Dense.CellValue.MineCount,
         Dense.Cell.mk Dense.CellState.Closed Dense.CellValue.MineCount,
         Dense.Cell.mk Dense.CellState.Closed Dense.CellValue.MineCount,
         Dense.Cell.mk Dense.CellState.Closed Dense.CellValue.MineCount]).reveal_cell
        0 2).cells.map Dense.Cell.state).get? 2 = some Dense.CellState.Revealed ∧
    (((Sparse.Minesweeper.mk 2 2 ∅ ∅ ∅).reveal_cell (5, 5)).1).open_cells
      = insert ((5, 5) : Sparse.Position) (∅ : Finset Sparse.Position) :=
  c2_no_out_of_bounds_error
    (Dense.Minesweeper.mk 2 2
      [Dense.Cell.mk Dense.CellState.Closed Dense.CellValue.MineCount,
       Dense.Cell.mk Dense.CellState.Closed Dense.CellValue.MineCount,
       Dense.Cell.mk Dense.CellState.Closed Dense.CellValue.MineCount,
       Dense.Cell.mk Dense.CellState.Closed Dense.CellValue.MineCount])
    (by decide) (Sparse.Minesweeper.mk 2 2 ∅ ∅ ∅) (5, 5)

/-- The dense `count_mines` never exceeds 8: the inclusive ranges each hold
at most three values and the center is always among the generated pairs and
filtered out. -/
theorem dense_count_mines_le_eight (b : Dense.Minesweeper) (row col : Nat) :
    b.count_mines row col ≤ 8 := by
  have hA : (if row > 0 then row - 1 else row) = row - 1 := by split <;> omega
  have hB : (if row ≥ b.width - 1 then row else row + 1) ≤ row + 1 := by split <;> omega
  have hB' : row ≤ (if row ≥ b.width - 1 then row else row + 1) := by split <;> omega
  have hC : (if col > 0 then col - 1 else col) = col - 1 := by split <;> omega
  have hD : (if col ≥ b.height - 1 then col else col + 1) ≤ col + 1 := by split <;> omega
  have hD' : col ≤ (if col ≥ b.height - 1 then col else col + 1) := by split <;> omega
  simp only [Dense.Minesweeper.count_mines, hA, hC]
  set B := if row ≥ b.width - 1 then row else row + 1 with hBdef
  set D := if col ≥ b.height - 1 then col else col + 1 with hDdef
  have hmem : ((row, col) : Nat × Nat)
      ∈ pairs (List.range' (row - 1) (B + 1 - (row - 1))) (List.range' (col - 1) (D + 1 - (col - 1))) :=
    mem_pairs.mpr ⟨List.mem_range'_1.mpr ⟨by omega, by omega⟩,
      List.mem_range'_1.mpr ⟨by omega, by omega⟩⟩
  have hnd := nodup_pairs (List.nodup_range' (row - 1) (B + 1 - (row - 1)))
    (List.nodup_range' (col - 1) (D + 1 - (col - 1)))
  have hflen : ((pairs (List.range' (row - 1) (B + 1 - (row - 1)))
        (List.range' (col - 1) (D + 1 - (col - 1)))).filter
      fun pos => pos ≠ (row, col)).length ≤ 8 := by
    rw [length_filter_ne_of_mem hmem hnd, length_pairs,
      List.length_range', List.length_range']
    have h1 : B + 1 - (row - 1) ≤ 3 := by omega
    have h2 : D + 1 - (col - 1) ≤ 3 := by omega
    have := Nat.mul_le_mul h1 h2
    omega
  have hstep : ∀ (acc : Nat) (pos : Nat × Nat), Dense.countStep b acc pos ≤ acc + 1 := by
    intro acc pos
    cases h : b.get_cell pos.1 pos.2 with
    | none => simp [Dense.countStep, h]
    | some c =>
        simp only [Dense.countStep, h]
        split <;> omega
  have hfold := foldl_le_add_length (Dense.countStep b) hstep
    ((pairs (List.range' (row - 1) (B + 1 - (row - 1)))
        (List.range' (col - 1) (D + 1 - (col - 1)))).filter
      fun pos => pos ≠ (row, col)) 0
  omega

/-- Each of the nine match arms of the `Display` digit renders the decimal
representation of the count, for counts `0..8`. -/
theorem symbolOfCount_eq_toString {n : Nat} (h : n ≤ 8) :
    Dense.symbolOfCount n = toString n := by
  interval_cases n <;> rfl

/-- C9 counterexample: in the sparse variant (`src/lib.rs`) a flagged,
unopened cell renders as lowercase `"f"`, not `"F"` as the claim states. -/
theorem c9_counterexample :
    ((0, 0) : Sparse.Position) ∈ (Sparse.Minesweeper.mk 1 1 ∅ ∅ {(0, 0)}).flagged_cells ∧
    ((0, 0) : Sparse.Position) ∉ (Sparse.Minesweeper.mk 1 1 ∅ ∅ {(0, 0)}).open_cells ∧
    (Sparse.Minesweeper.mk 1 1 ∅ ∅ {(0, 0)}).format_cell (0, 0) ≠ "F" ∧
    (Sparse.Minesweeper.mk 1 1 ∅ ∅ {(0, 0)}).format_cell (0, 0) = "f" := by
  refine ⟨by decide, by decide, by decide, by decide⟩

/-- C9 (amended): per-cell rendering.  Dense variant (`src/minesweeper.rs`):
`"*"` for a revealed mine, the decimal digit (0–8) of the live
`count_mines` for a revealed empty cell, `"F"` for flagged, `"#"` for
closed.  Sparse variant (`src/lib.rs`): the same, except a flag renders as
lowercase `"f"` and "revealed" means membership in `open_cells` (which
takes priority over the flag set).  Both renderers are pure projections of
the board — in this embedding they return only a string and take no board
apart, so they mutate nothing. -/
theorem c9_render_amended (bd : Dense.Minesweeper) (row col : Nat) (cell : Dense.Cell)
    (hcell : bd.get_cell row col = some cell)
    (bs : Sparse.Minesweeper) (p : Sparse.Position)
    (hx : p.1 < bs.width) (hy : p.2 < bs.height) :
    ((cell.state = Dense.CellState.Revealed → cell.value = Dense.CellValue.Mine →
        bd.format_cell row col = some "*") ∧
      (cell.state = Dense.CellState.Revealed → cell.value = Dense.CellValue.MineCount →
        bd.format_cell row col = some (toString (bd.count_mines row col)) ∧
          bd.count_mines row col ≤ 8) ∧
      (cell.state = Dense.CellState.Flagged → bd.format_cell row col = some "F") ∧
      (cell.state = Dense.CellState.Closed → bd.format_cell row col = some "#")) ∧
    ((p ∈ bs.open_cells → p ∈ bs.mines → bs.format_cell p = "*") ∧
      (p ∈ bs.open_cells → p ∉ bs.mines →
        bs.format_cell p = toString (bs.count_mines p) ∧ bs.count_mines p ≤ 8) ∧
      (p ∉ bs.open_cells → p ∈ bs.flagged_cells → bs.format_cell p = "f") ∧
      (p ∉ bs.open_cells → p ∉ bs.flagged_cells → bs.format_cell p = "#")) := by
  constructor
  · refine ⟨?_, ?_, ?_, ?_⟩
    · intro hst hv
      simp [Dense.Minesweeper.format_cell, hcell, hst, hv]
    · intro hst hv
      have hle := dense_count_mines_le_eight bd row col
      refine ⟨?_, hle⟩
      simp [Dense.Minesweeper.format_cell, hcell, hst, hv,
        symbolOfCount_eq_toString hle]
    · intro hst
      simp [Dense.Minesweeper.format_cell, hcell, hst]
    · intro hst
      simp [Dense.Minesweeper.format_cell, hcell, hst]
  · refine ⟨?_, ?_, ?_, ?_⟩
    · intro ho hm; simp [Sparse.Minesweeper.format_cell, ho, hm]
    · intro ho hm
      exact ⟨by simp [Sparse.Minesweeper.format_cell, ho, hm],
        Sparse.count_mines_le_eight bs p hx hy⟩
    · intro ho hf; simp [Sparse.Minesweeper.format_cell, ho, hf]
    · intro ho hf; simp [Sparse.Minesweeper.format_cell, ho, hf]

/-- Witness for the amended C9: a 1×1 dense board with its cell revealed,
and a 2×2 sparse board with a mine at `(0,0)`, probed at `(0,0)`. -/
theorem c9_render_amended_witness :
    (((Dense.Cell.mk Dense.CellState.Revealed Dense.CellValue.MineCount).state
          = Dense.CellState.Revealed →
        (Dense.Cell.mk Dense.CellState.Revealed Dense.CellValue.MineCount).value
          = Dense.CellValue.Mine →
        (Dense.Minesweeper.mk 1 1
            [Dense.Cell.mk Dense.CellState.Revealed Dense.CellValue.MineCount]).format_cell 0 0
          = some "*") ∧
      ((Dense.Cell.mk Dense.CellState.Revealed Dense.CellValue.MineCount).state
          = Dense.CellState.Revealed →
        (Dense.Cell.mk Dense.CellState.Revealed Dense.CellValue.MineCount).value
          = Dense.CellValue.MineCount →
        (Dense.Minesweeper.mk 1 1
            [Dense.Cell.mk Dense.CellState.Revealed Dense.CellValue.MineCount]).format_cell 0 0
          = some (toString ((Dense.Minesweeper.mk 1 1
              [Dense.Cell.mk Dense.CellState.Revealed
                Dense.CellValue.MineCount]).count_mines 0 0)) ∧
          (Dense.Minesweeper.mk 1 1
            [Dense.Cell.mk Dense.CellState.Revealed
              Dense.CellValue.MineCount]).count_mines 0 0 ≤ 8) ∧
      ((Dense.Cell.mk Dense.CellState.Revealed Dense.CellValue.MineCount).state
          = Dense.CellState.Flagged →
        (Dense.Minesweeper.mk 1 1
            [Dense.Cell.mk Dense.CellState.Revealed Dense.CellValue.MineCount]).format_cell 0 0
          = some "F") ∧
      ((Dense.Cell.mk Dense.CellState.Revealed Dense.CellValue.MineCount).state
          = Dense.CellState.Closed →
        (Dense.Minesweeper.mk 1 1
            [Dense.Cell.mk Dense.CellState.Revealed Dense.CellValue.MineCount]).format_cell 0 0
          = some "#")) ∧
    ((((0, 0) : Sparse.Position) ∈ (Sparse.Minesweeper.mk 2 2 {(0, 0)} ∅ {(1, 1)}).open_cells →
        ((0, 0) : Sparse.Position) ∈ (Sparse.Minesweeper.mk 2 2 {(0, 0)} ∅ {(1, 1)}).mines →
        (Sparse.Minesweeper.mk 2 2 {(0, 0)} ∅ {(1, 1)}).format_cell (0, 0) = "*") ∧
      (((0, 0) : Sparse.Position) ∈ (Sparse.Minesweeper.mk 2 2 {(0, 0)} ∅ {(1, 1)}).open_cells →
        ((0, 0) : Sparse.Position) ∉ (Sparse.Minesweeper.mk 2 2 {(0, 0)} ∅ {(1, 1)}).mines →
        (Sparse.Minesweeper.mk 2 2 {(0, 0)} ∅ {(1, 1)}).format_cell (0, 0)
          = toString ((Sparse.Minesweeper.mk 2 2 {(0, 0)} ∅ {(1, 1)}).count_mines (0, 0)) ∧
        (Sparse.Minesweeper.mk 2 2 {(0, 0)} ∅ {(1, 1)}).count_mines (0, 0) ≤ 8) ∧
      (((0, 0) : Sparse.Position) ∉ (Sparse.Minesweeper.mk 2 2 {(0, 0)} ∅ {(1, 1)}).open_cells →
        ((0, 0) : Sparse.Position) ∈ (Sparse.Minesweeper.mk 2 2 {(0, 0)} ∅ {(1, 1)}).flagged_cells →
        (Sparse.Minesweeper.mk 2 2 {(0, 0)} ∅ {(1, 1)}).format_cell (0, 0) = "f") ∧
      (((0, 0) : Sparse.Position) ∉ (Sparse.Minesweeper.mk 2 2 {(0, 0)} ∅ {(1, 1)}).open_cells →
        ((0, 0) : Sparse.Position) ∉ (Sparse.Minesweeper.mk 2 2 {(0, 0)} ∅ {(1, 1)}).flagged_cells →
        (Sparse.Minesweeper.mk 2 2 {(0, 0)} ∅ {(1, 1)}).format_cell (0, 0) = "#")) :=
  c9_render_amended
    (Dense.Minesweeper.mk 1 1
      [Dense.Cell.mk Dense.CellState.Revealed Dense.CellValue.MineCount]) 0 0
    (Dense.Cell.mk Dense.CellState.Revealed Dense.CellValue.MineCount) (by decide)
    (Sparse.Minesweeper.mk 2 2 {(0, 0)} ∅ {(1, 1)}) (0, 0) (by decide) (by decide)

/-- C10: in the dense variant an out-of-range column whose linear index
`row*width + col` still lands inside the vector makes `reveal_cell` and
`toggle_flag` act on the aliased in-grid position
`(idx / width, idx % width)` — a different cell — rather than failing or
doing nothing. -/
theorem c10_linear_index_alias (b : Dense.Minesweeper) (row col : Nat)
    (hlen : b.cells.length = b.width * b.height)
    (hcol : b.width ≤ col)
    (hidx : row * b.width + col < b.width * b.height) :
    (row * b.width + col) / b.width < b.height ∧
    (row * b.width + col) % b.width < b.width ∧
    (((row * b.width + col) / b.width, (row * b.width + col) % b.width) : Nat × Nat)
      ≠ (row, col) ∧
    b.reveal_cell row col
      = b.reveal_cell ((row * b.width + col) / b.width) ((row * b.width + col) % b.width) ∧
    b.toggle_flag row col
      = b.toggle_flag ((row * b.width + col) / b.width) ((row * b.width + col) % b.width) ∧
    ((b.reveal_cell row col).cells.map Dense.Cell.state).get? (row * b.width + col)
      = some Dense.CellState.Revealed := by
  have hwpos : 0 < b.width := by
    rcases Nat.eq_zero_or_pos b.width with h0 | h
    · rw [h0] at hidx; simp at hidx
    · exact h
  have hdiv : (row * b.width + col) / b.width < b.height := by
    rw [Nat.div_lt_iff_lt_mul hwpos, Nat.mul_comm b.height b.width]
    exact hidx
  have hmod : (row * b.width + col) % b.width < b.width :=
    Nat.mod_lt _ hwpos
  have hgi : b.get_index ((row * b.width + col) / b.width) ((row * b.width + col) % b.width)
      = b.get_index row col := by
    unfold Dense.Minesweeper.get_index
    calc (row * b.width + col) / b.width * b.width + (row * b.width + col) % b.width
        = b.width * ((row * b.width + col) / b.width) + (row * b.width + col) % b.width := by
          ring
      _ = row * b.width + col := Nat.div_add_mod _ _
  have hne : (((row * b.width + col) / b.width, (row * b.width + col) % b.width) : Nat × Nat)
      ≠ (row, col) := by
    intro hEq
    have h2 : (row * b.width + col) % b.width = col := congrArg Prod.snd hEq
    omega
  refine ⟨hdiv, hmod, hne, ?_, ?_, ?_⟩
  · unfold Dense.Minesweeper.reveal_cell
    rw [hgi]
  · unfold Dense.Minesweeper.toggle_flag
    rw [hgi]
  · have hlt : row * b.width + col < b.cells.length := by rw [hlen]; exact hidx
    have hc := List.get?_eq_get hlt
    have hget := Dense.get?_modifyCell_self b.cells (row * b.width + col)
      Dense.revealUpdate _ hc
    have hcells : (b.reveal_cell row col).cells
        = Dense.modifyCell b.cells (row * b.width + col) Dense.revealUpdate := rfl
    rw [hcells, List.get?_eq_getElem?, List.getElem?_map]
    rw [List.get?_eq_getElem?] at hget
    rw [hget]
    rfl

/-- Witness for C10: on a mine-free 2×2 board, `reveal_cell 0 2` (column
out of range, linear index 2) both equals `reveal_cell 1 0` and reveals the
cell stored at index 2, i.e. grid position `(1,0)`. -/
theorem c10_linear_index_alias_witness :
    (0 * 2 + 2) / 2 < 2 ∧
    (0 * 2 + 2) % 2 < 2 ∧
    ((((0 * 2 + 2) / 2 : Nat), ((0 * 2 + 2) % 2 : Nat)) : Nat × Nat) ≠ ((0 : Nat), (2 : Nat)) ∧
    (Dense.Minesweeper.mk 2 2
        [Dense.Cell.mk Dense.CellState.Closed Dense.CellValue.MineCount,
         Dense.Cell.mk Dense.CellState.Closed Dense.CellValue.MineCount,
         Dense.Cell.mk Dense.CellState.Closed Dense.CellValue.MineCount,
         Dense.Cell.mk Dense.CellState.Closed Dense.CellValue.MineCount]).reveal_cell 0 2
      = (Dense.Minesweeper.mk 2 2
        [Dense.Cell.mk Dense.CellState.Closed Dense.CellValue.MineCount,
         Dense.Cell.mk Dense.CellState.Closed Dense.CellValue.MineCount,
         Dense.Cell.mk Dense.CellState.Closed Dense.CellValue.MineCount,
         Dense.Cell.mk Dense.CellState.Closed Dense.CellValue.MineCount]).reveal_cell
          ((0 * 2 + 2) / 2) ((0 * 2 + 2) % 2) ∧
    (Dense.Minesweeper.mk 2 2
        [Dense.Cell.mk Dense.CellState.Closed Dense.CellValue.MineCount,
         Dense.Cell.mk Dense.CellState.Closed Dense.CellValue.MineCount,
         Dense.Cell.mk Dense.CellState.Closed Dense.CellValue.MineCount,
         Dense.Cell.mk Dense.CellState.Closed Dense.CellValue.MineCount]).toggle_flag 0 2
      = (Dense.Minesweeper.mk 2 2
        [Dense.Cell.mk Dense.CellState.Closed Dense.CellValue.MineCount,
         Dense.Cell.mk Dense.CellState.Closed Dense.CellValue.MineCount,
         Dense.Cell.mk Dense.CellState.Closed Dense.CellValue.MineCount,
         Dense.Cell.mk Dense.CellState.Closed Dense.CellValue.MineCount]).toggle_flag
          ((0 * 2 + 2) / 2) ((0 * 2 + 2) % 2) ∧
    (((Dense.Minesweeper.mk 2 2
        [Dense.Cell.mk Dense.CellState.Closed Dense.CellValue.MineCount,
         Dense.Cell.mk Dense.CellState.Closed Dense.CellValue.MineCount,
         Dense.Cell.mk Dense.CellState.Closed Dense.CellValue.MineCount,
         Dense.Cell.mk Dense.CellState.Closed Dense.CellValue.MineCount]).reveal_cell
        0 2).cells.map Dense.Cell.state).get? (0 * 2 + 2)
      = some Dense.CellState.Revealed :=
  c10_linear_index_alias
    (Dense.Minesweeper.mk 2 2
      [Dense.Cell.mk Dense.CellState.Closed Dense.CellValue.MineCount,
       Dense.Cell.mk Dense.CellState.Closed Dense.CellValue.MineCount,
       Dense.Cell.mk Dense.CellState.Closed Dense.CellValue.MineCount,
       Dense.Cell.mk Dense.CellState.Closed Dense.CellValue.MineCount]) 0 2
    (by decide) (by decide) (by decide)
